import Mathlib

/-!
Verification of the resumable OVA-transfer subsystem (archive indexer,
retry executor, session tracker, chunked uploader) against its
specification.  Each Go function is shallowly embedded as an executable
Lean definition; Go `int`/`int64` values are modelled as `Int` (or `Nat`
where the source only ever handles non-negative quantities), Go `float64`
arithmetic is modelled as exact rational arithmetic over `ℚ`, and
side-effecting loops are modelled by explicit state passing (with fuel
where the source loop has no structural bound).
-/

/-! ## Retry executor (pkg/retry/manager.go) -/

/-- Embedding of `RetryManager` (manager.go:13-21).  `maxRetries` is a Go
`int` (the constructor stores `-1` as the unbounded sentinel), the
delay/backoff fields are Go `time.Duration`/`float64` values modelled as
rationals (durations in nanoseconds). -/
structure RetryManager where
  maxRetries : Int
  baseDelay : ℚ
  maxDelay : ℚ
  backoffFactor : ℚ
  jitterRange : ℚ
  retryableErrors : List String
deriving Repr

/-- Embedding of `Config` (manager.go:23-30). -/
structure Config where
  maxRetries : Int
  baseDelay : ℚ
  maxDelay : ℚ
  backoffFactor : ℚ
  jitterRange : ℚ
  retryableErrors : List String
deriving Repr

/-- `NewRetryManager` (manager.go:43-72): every zero-valued field is
replaced by its built-in default (1 s = 10^9 ns, 5 min = 3*10^11 ns). -/
def newRetryManager (config : Config) : RetryManager :=
  let mr := if config.maxRetries = 0 then -1 else config.maxRetries
  let bd := if config.baseDelay = 0 then 1000000000 else config.baseDelay
  let md := if config.maxDelay = 0 then 300000000000 else config.maxDelay
  let bf := if config.backoffFactor = 0 then 2 else config.backoffFactor
  let jr := if config.jitterRange = 0 then 1/10 else config.jitterRange
  { maxRetries := mr, baseDelay := bd, maxDelay := md, backoffFactor := bf,
    jitterRange := jr, retryableErrors := config.retryableErrors }

/-- `containsSubstring` (manager.go:241-248): scans windows
`str[i:i+len(substr)]` for `0 ≤ i ≤ len(str)-len(substr)`, modelled over
character lists. -/
def containsSubstring (str substr : List Char) : Bool :=
  (List.range (str.length - substr.length + 1)).any
    (fun i => decide ((str.drop i).take substr.length = substr))

/-- `containsString` (manager.go:234-239). -/
def containsString (str substr : String) : Bool :=
  decide (substr.length ≤ str.length) &&
    (decide (substr = "") || decide (str = substr) ||
      containsSubstring str.data substr.data)

/-- `shouldRetry` (manager.go:151-171).  `attempt` counts from 1. -/
def shouldRetry (rm : RetryManager) (err : String) (attempt : Nat) : Bool :=
  if 0 < rm.maxRetries ∧ rm.maxRetries ≤ (attempt : Int) then false
  else if rm.retryableErrors = [] then true
  else rm.retryableErrors.any (fun p => containsString err p)

/-- Outcome of one `ExecuteWithStats` run.  `exhausted n e` models the
`operation failed after n attempts: e` error, `cancelled n` models the
`operation cancelled` error returned when the context fires during the
wait that follows attempt `n`. -/
inductive ExecOutcome where
  | ok (attempts : Nat)
  | exhausted (attempts : Nat) (lastError : String)
  | cancelled (attempts : Nat)
  | outOfFuel
deriving Repr, DecidableEq

/-- Loop of `ExecuteWithStats` (manager.go:84-149) as a fuelled
recursion.  `fn n` is the result of the n-th invocation of the operation
(`none` = success), `cancel n` says whether the cancellation signal fires
during the inter-attempt wait after attempt `n`.  Returns the outcome
together with the number of invocations of `fn`.  The delay computation
(manager.go:131) does not influence control flow and is elided here; the
`select` between `ctx.Done()` and the timer (manager.go:142-147) is
modelled by `cancel`. -/
def executeAux (rm : RetryManager) (fn : Nat → Option String)
    (cancel : Nat → Bool) : Nat → Nat → ExecOutcome × Nat
  | 0, _ => (.outOfFuel, 0)
  | fuel + 1, prev =>
    let attempt := prev + 1
    match fn attempt with
    | none => (.ok attempt, 1)
    | some err =>
      if shouldRetry rm err attempt then
        if cancel attempt then (.cancelled attempt, 1)
        else
          let r := executeAux rm fn cancel fuel attempt
          (r.1, r.2 + 1)
      else (.exhausted attempt err, 1)

/-- `Execute`/`ExecuteWithStats` entry point: the attempt counter starts
at 0 and is incremented at the top of each loop iteration. -/
def execute (rm : RetryManager) (fn : Nat → Option String)
    (cancel : Nat → Bool) (fuel : Nat) : ExecOutcome × Nat :=
  executeAux rm fn cancel fuel 0

/-- `calculateDelay` (manager.go:173-194).  `r` models the
`rand.Float64()` draw (a value in `[0,1)`); the Go `float64`/`Duration`
arithmetic is idealised as exact rational arithmetic. -/
def calculateDelay (rm : RetryManager) (attempt : Nat) (r : ℚ) : ℚ :=
  let delay0 := rm.baseDelay * rm.backoffFactor ^ (attempt - 1)
  let delay1 := if rm.maxDelay < delay0 then rm.maxDelay else delay0
  let delay2 := if 0 < rm.jitterRange
    then delay1 + delay1 * rm.jitterRange * (r * 2 - 1)
    else delay1
  if delay2 < 0 then rm.baseDelay else delay2

/-! ## Chunked streaming uploader: parallel chunk queue
(pkg/esxi/uploader.go, `uploadFromOVAParallel`) -/

/-- Chunk-queueing loop of `uploadFromOVAParallel` (uploader.go:432-447):
for each chunk number the queued range is `(offset + currentOffset, sz)`
where `sz = u.chunkSize`, reduced to `totalSize - currentOffset` when
`currentOffset + chunkSize > totalSize`; then `currentOffset += sz`.  The
single `chunkSize` local of the source is inlined into the two branches
of the conditional.  `n` counts the remaining chunk numbers. -/
def buildChunksAux (C S off : Nat) : Nat → Nat → List (Nat × Nat)
  | 0, _ => []
  | n + 1, cur =>
    if S < cur + C then
      (off + cur, S - cur) :: buildChunksAux C S off n (cur + (S - cur))
    else
      (off + cur, C) :: buildChunksAux C S off n (cur + C)

/-- `totalChunks := (totalSize + u.chunkSize - 1) / u.chunkSize`
(uploader.go:359). -/
def totalChunksOf (S C : Nat) : Nat := (S + C - 1) / C

/-- The full list of `(ovaOffset, chunkSize)` ranges placed on the work
queue for a payload of `S` bytes at archive offset `off`
(uploader.go:432-447: chunk numbers run from 1 to `totalChunks`,
`currentOffset` starts at 0). -/
def buildChunks (C S off : Nat) : List (Nat × Nat) :=
  buildChunksAux C S off (totalChunksOf S C) 0

/-! ## Session tracker (pkg/progress/tracker.go) -/

/-- Embedding of `FileProgress` (tracker.go:14-24).  Go `int64`/`int`
fields are `Int`; `time.Time` stamps are opaque `Int` instants. -/
structure FileProgress where
  fileName : String
  totalSize : Int
  uploadedSize : Int
  chunksTotal : Int
  chunksUploaded : Int
  startTime : Int
  lastUpdate : Int
  isCompleted : Bool
  sha1Hash : String
deriving Repr, DecidableEq

/-- Embedding of `UploadSession` (tracker.go:26-39).  The Go
`map[string]*FileProgress` is modelled as an association list keyed by
file name (Go map keys are unique; registration order is retained). -/
structure UploadSession where
  sessionId : String
  ovaFile : String
  esxiHost : String
  datastore : String
  vmName : String
  totalSize : Int
  uploadedSize : Int
  startTime : Int
  lastUpdate : Int
  isCompleted : Bool
  files : List (String × FileProgress)
  retryAttempts : Int
deriving Repr, DecidableEq

/-- Map lookup `t.session.Files[fileName]`. -/
def lookupFile : List (String × FileProgress) → String → Option FileProgress
  | [], _ => none
  | p :: rest, n => if p.1 = n then some p.2 else lookupFile rest n

/-- In-place mutation of the map entry (Go writes through the
`*FileProgress` pointer held in the map). -/
def replaceFile (l : List (String × FileProgress)) (n : String)
    (f : FileProgress) : List (String × FileProgress) :=
  l.map (fun p => if p.1 = n then (p.1, f) else p)

/-- The fixed 32 MiB chunk constant of the tracker (tracker.go:123,151). -/
def chunkSizeConst : Int := 33554432

/-- `UpdateFileProgress` (tracker.go:142-165).  `now` models
`time.Now()`.  A missing name leaves the session unchanged. -/
def updateFileProgress (s : UploadSession) (fileName : String)
    (uploadedSize : Int) (now : Int) : UploadSession :=
  match lookupFile s.files fileName with
  | none => s
  | some file =>
    let oldUploaded := file.uploadedSize
    let cu := Int.tdiv uploadedSize chunkSizeConst +
      (if 0 < Int.tmod uploadedSize chunkSizeConst then 1 else 0)
    let file' := { file with
      uploadedSize := uploadedSize
      lastUpdate := now
      chunksUploaded := cu
      isCompleted := if file.totalSize ≤ uploadedSize then true
                     else file.isCompleted }
    { s with
      files := replaceFile s.files fileName file'
      uploadedSize := s.uploadedSize + (uploadedSize - oldUploaded)
      lastUpdate := now }

/-- The record `MarkFileCompleted` leaves for a file
(tracker.go:171-180): uploaded is forced to total only inside the
`!file.IsCompleted` guard (an already-complete file keeps its recorded
uploaded size, even a regressed one); the completion flag, chunk counter
and timestamp are set unconditionally after the guard. -/
def completedFile (f : FileProgress) (now : Int) : FileProgress :=
  { f with
      uploadedSize := if f.isCompleted then f.uploadedSize else f.totalSize
      isCompleted := true
      chunksUploaded := f.chunksTotal
      lastUpdate := now }

/-- `MarkFileCompleted` (tracker.go:167-196): when the file was not
already complete, adds the remaining bytes to the aggregate and forces
uploaded = total; unconditionally marks the file complete; then sets the
session flag if every file is complete (and leaves it untouched
otherwise). -/
def markFileCompleted (s : UploadSession) (fileName : String)
    (now : Int) : UploadSession :=
  let s1 :=
    match lookupFile s.files fileName with
    | none => s
    | some file =>
      let s2 := if ¬ file.isCompleted
        then { s with
          uploadedSize := s.uploadedSize + (file.totalSize - file.uploadedSize) }
        else s
      { s2 with
          files := replaceFile s2.files fileName (completedFile file now)
          lastUpdate := now }
  if s1.files.all (fun p => p.2.isCompleted) then { s1 with isCompleted := true }
  else s1

/-- A registered item with 10 of 100 bytes recorded. -/
def exFileA : FileProgress :=
  { fileName := "a", totalSize := 100, uploadedSize := 10, chunksTotal := 1,
    chunksUploaded := 1, startTime := 0, lastUpdate := 0, isCompleted := false,
    sha1Hash := "" }

/-- A session holding only `exFileA`. -/
def exSession4 : UploadSession :=
  { sessionId := "s", ovaFile := "o", esxiHost := "h", datastore := "d",
    vmName := "v", totalSize := 100, uploadedSize := 10, startTime := 0,
    lastUpdate := 0, isCompleted := false, files := [("a", exFileA)],
    retryAttempts := 0 }

/-- A second, already-completed registered item. -/
def exFileB : FileProgress :=
  { fileName := "b", totalSize := 50, uploadedSize := 50, chunksTotal := 2,
    chunksUploaded := 2, startTime := 0, lastUpdate := 0, isCompleted := true,
    sha1Hash := "" }

/-- A session whose aggregate flag is (stale) true while item "a" is
still incomplete.  This state is reachable through the public API:
`MarkFileCompleted` on a tracker with an empty file map sets the
aggregate flag vacuously (the all-files loop over zero files succeeds),
and later `AddFile` calls never clear it. -/
def exSession6 : UploadSession :=
  { sessionId := "s", ovaFile := "o", esxiHost := "h", datastore := "d",
    vmName := "v", totalSize := 150, uploadedSize := 60, startTime := 0,
    lastUpdate := 0, isCompleted := true,
    files := [("a", exFileA), ("b", exFileB)], retryAttempts := 0 }

/-- A fresh 100-byte registered item "c" (state after `AddFile`). -/
def exFileC : FileProgress :=
  { fileName := "c", totalSize := 100, uploadedSize := 0, chunksTotal := 1,
    chunksUploaded := 0, startTime := 0, lastUpdate := 0, isCompleted := false,
    sha1Hash := "" }

/-- A fresh session holding only `exFileC`. -/
def exSession6Base : UploadSession :=
  { sessionId := "s", ovaFile := "o", esxiHost := "h", datastore := "d",
    vmName := "v", totalSize := 100, uploadedSize := 0, startTime := 0,
    lastUpdate := 0, isCompleted := false, files := [("c", exFileC)],
    retryAttempts := 0 }

/-- Item "c" driven to a completed-but-regressed state through the
public API: `UpdateFileProgress("c", 100)` sets the completion flag
(tracker.go:161-163), then `UpdateFileProgress("c", 5)` overwrites the
uploaded size downward while the flag is never cleared. -/
def exSession6Reg : UploadSession :=
  updateFileProgress (updateFileProgress exSession6Base "c" 100 1) "c" 5 2

/-- JSON document model for the persisted session file
(`encoding/json`, tracker.go:270-285 and 83-111).  Timestamps are the
opaque `Int` instants of the embedding; arrays are not needed for this
document shape. -/
inductive JValue where
  | jstr (s : String)
  | jint (n : Int)
  | jbool (b : Bool)
  | jobj (fields : List (String × JValue))
deriving Repr

/-- Key lookup in a JSON object (the encoder below only emits objects
with distinct keys, matching Go maps/structs). -/
def jLookup : List (String × JValue) → String → Option JValue
  | [], _ => none
  | p :: rest, k => if p.1 = k then some p.2 else jLookup rest k

/-- `json.Marshal` of one `FileProgress` per its struct tags
(tracker.go:14-24): fields in struct order, `sha1Hash` tagged
`omitempty` and dropped when empty. -/
def encodeFileProgress (f : FileProgress) : JValue :=
  .jobj ([("fileName", .jstr f.fileName),
    ("totalSize", .jint f.totalSize),
    ("uploadedSize", .jint f.uploadedSize),
    ("chunksTotal", .jint f.chunksTotal),
    ("chunksUploaded", .jint f.chunksUploaded),
    ("startTime", .jint f.startTime),
    ("lastUpdate", .jint f.lastUpdate),
    ("isCompleted", .jbool f.isCompleted)] ++
    (if f.sha1Hash = "" then [] else [("sha1Hash", .jstr f.sha1Hash)]))

/-- `json.Marshal` of the whole `UploadSession` per its struct tags
(tracker.go:26-39).  Go emits the `files` map with sorted keys; key
order inside a JSON object is irrelevant to decoding, so registration
order is kept here. -/
def encodeSession (s : UploadSession) : JValue :=
  .jobj [("sessionId", .jstr s.sessionId),
    ("ovaFile", .jstr s.ovaFile),
    ("esxiHost", .jstr s.esxiHost),
    ("datastore", .jstr s.datastore),
    ("vmName", .jstr s.vmName),
    ("totalSize", .jint s.totalSize),
    ("uploadedSize", .jint s.uploadedSize),
    ("startTime", .jint s.startTime),
    ("lastUpdate", .jint s.lastUpdate),
    ("isCompleted", .jbool s.isCompleted),
    ("files", .jobj (s.files.map (fun p => (p.1, encodeFileProgress p.2)))),
    ("retryAttempts", .jint s.retryAttempts)]

/-- `json.Unmarshal` field access: an absent key leaves the Go zero
value, a type-mismatched value is a decode error. -/
def getStr (fs : List (String × JValue)) (k : String) : Option String :=
  match jLookup fs k with
  | none => some ""
  | some (.jstr s) => some s
  | some _ => none

/-- Integer field access (absent ↦ 0). -/
def getInt (fs : List (String × JValue)) (k : String) : Option Int :=
  match jLookup fs k with
  | none => some 0
  | some (.jint n) => some n
  | some _ => none

/-- Boolean field access (absent ↦ false). -/
def getBool (fs : List (String × JValue)) (k : String) : Option Bool :=
  match jLookup fs k with
  | none => some false
  | some (.jbool b) => some b
  | some _ => none

/-- `json.Unmarshal` into one `FileProgress`. -/
def decodeFileProgress (j : JValue) : Option FileProgress :=
  match j with
  | .jobj fs => do
    let fileName ← getStr fs "fileName"
    let totalSize ← getInt fs "totalSize"
    let uploadedSize ← getInt fs "uploadedSize"
    let chunksTotal ← getInt fs "chunksTotal"
    let chunksUploaded ← getInt fs "chunksUploaded"
    let startTime ← getInt fs "startTime"
    let lastUpdate ← getInt fs "lastUpdate"
    let isCompleted ← getBool fs "isCompleted"
    let sha1Hash ← getStr fs "sha1Hash"
    some { fileName := fileName
           totalSize := totalSize
           uploadedSize := uploadedSize
           chunksTotal := chunksTotal
           chunksUploaded := chunksUploaded
           startTime := startTime
           lastUpdate := lastUpdate
           isCompleted := isCompleted
           sha1Hash := sha1Hash }
  | _ => none

/-- `json.Unmarshal` of the `files` object, entry by entry. -/
def decodeFilesList : List (String × JValue) →
    Option (List (String × FileProgress))
  | [] => some []
  | p :: rest => do
    let f ← decodeFileProgress p.2
    let rest2 ← decodeFilesList rest
    some ((p.1, f) :: rest2)

/-- The `files` field (absent ↦ nil map). -/
def getFiles (fs : List (String × JValue)) :
    Option (List (String × FileProgress)) :=
  match jLookup fs "files" with
  | none => some []
  | some (.jobj l) => decodeFilesList l
  | some _ => none

/-- `json.Unmarshal` into an `UploadSession` (`LoadTracker`,
tracker.go:89-93). -/
def decodeSession (j : JValue) : Option UploadSession :=
  match j with
  | .jobj fs => do
    let sessionId ← getStr fs "sessionId"
    let ovaFile ← getStr fs "ovaFile"
    let esxiHost ← getStr fs "esxiHost"
    let datastore ← getStr fs "datastore"
    let vmName ← getStr fs "vmName"
    let totalSize ← getInt fs "totalSize"
    let uploadedSize ← getInt fs "uploadedSize"
    let startTime ← getInt fs "startTime"
    let lastUpdate ← getInt fs "lastUpdate"
    let isCompleted ← getBool fs "isCompleted"
    let files ← getFiles fs
    let retryAttempts ← getInt fs "retryAttempts"
    some { sessionId := sessionId
           ovaFile := ovaFile
           esxiHost := esxiHost
           datastore := datastore
           vmName := vmName
           totalSize := totalSize
           uploadedSize := uploadedSize
           startTime := startTime
           lastUpdate := lastUpdate
           isCompleted := isCompleted
           files := files
           retryAttempts := retryAttempts }
  | _ => none

/-! ## Archive indexer (pkg/ova/parser.go) -/

/-- One tar record as seen by the indexing loop (parser.go:56-89):
whether it is a regular file (`tar.TypeReg`), its name and its size. -/
structure TarEntry where
  isReg : Bool
  name : String
  size : Nat
deriving Repr, DecidableEq

/-- Embedding of `OVAFile` (parser.go:23-28). -/
structure OVAFile where
  name : String
  size : Nat
  offset : Nat
  sha1Hash : String
deriving Repr, DecidableEq

/-- Embedding of `OVAPackage` (parser.go:14-21), restricted to the entry
index (the path and total-size fields carry no indexing logic). -/
structure OVAPackage where
  ovfFile : Option OVAFile := none
  vmdkFiles : List OVAFile := []
  manifestFile : Option OVAFile := none
  certFile : Option OVAFile := none
deriving Repr, DecidableEq

/-- Backwards scan of `filepath.Ext`: walk from the end of the name
until a path separator; at the first dot return the suffix from it. -/
def fileExtAux : List Char → List Char → List Char
  | [], _ => []
  | c :: rest, acc =>
    if c = '/' then []
    else if c = '.' then '.' :: acc
    else fileExtAux rest (c :: acc)

/-- `filepath.Ext` (parser.go:76). -/
def fileExt (name : String) : String :=
  String.mk (fileExtAux name.data.reverse [])

/-- `strings.ToLower`, applied to ASCII extensions and hex digests
(ASCII lowering suffices for the values this code compares). -/
def strToLower (s : String) : String := String.mk (s.data.map Char.toLower)

/-- `e` is classified as the configuration descriptor (`.ovf`). -/
def isOVFEntry (e : TarEntry) : Bool :=
  e.isReg && decide (strToLower (fileExt e.name) = ".ovf")

/-- `e` is classified as a payload entry (`.vmdk`). -/
def isVMDKEntry (e : TarEntry) : Bool :=
  e.isReg && decide (strToLower (fileExt e.name) = ".vmdk")

/-- Indexing loop of `ParseOVA` (parser.go:56-89): the running byte
cursor advances by every record's size (regular or not); a regular file
is recorded at the current cursor and classified by its lower-cased
extension (`.ovf`, `.mf`, `.cert` overwrite; `.vmdk` appends). -/
def indexEntries : List TarEntry → Nat → OVAPackage → OVAPackage
  | [], _, pkg => pkg
  | e :: rest, off, pkg =>
    if e.isReg then
      let f : OVAFile :=
        { name := e.name, size := e.size, offset := off, sha1Hash := "" }
      let ext := strToLower (fileExt e.name)
      let pkg2 :=
        if ext = ".ovf" then { pkg with ovfFile := some f }
        else if ext = ".vmdk" then { pkg with vmdkFiles := pkg.vmdkFiles ++ [f] }
        else if ext = ".mf" then { pkg with manifestFile := some f }
        else if ext = ".cert" then { pkg with certFile := some f }
        else pkg
      indexEntries rest (off + e.size) pkg2
    else indexEntries rest (off + e.size) pkg

/-- The manifest `FileName → SHA1Hash` map (parser.go:156-159); Go map
insertion lets the last duplicate win, hence lookup over the reversed
entry list. -/
def manifestLookup (m : List (String × String)) (n : String) : Option String :=
  m.reverse.lookup n

/-- Per-file hash attachment of `updateHashesFromManifest`
(parser.go:161-171): exact name match, otherwise untouched. -/
def applyManifestHash (m : List (String × String)) (f : OVAFile) : OVAFile :=
  match manifestLookup m f.name with
  | some h => { f with sha1Hash := h }
  | none => f

/-- `updateHashesFromManifest` (parser.go:155-172). -/
def updateHashesFromManifest (pkg : OVAPackage)
    (m : List (String × String)) : OVAPackage :=
  let pkg1 :=
    match pkg.ovfFile with
    | some f => { pkg with ovfFile := some (applyManifestHash m f) }
    | none => pkg
  { pkg1 with vmdkFiles := pkg1.vmdkFiles.map (applyManifestHash m) }

/-- The fatal missing-required-entry failures of `ParseOVA`
(parser.go:91-97). -/
inductive ParseError where
  | noOVF
  | noVMDK
deriving Repr, DecidableEq

/-- `ParseOVA` (parser.go:35-111) over a modelled archive.  File-system
errors are out of scope; `manifest` is the parsed name→hash list
produced by `parseManifestFile` (parser.go:113-153), whose line-regex
parsing is orthogonal to the indexing logic modelled here (it is empty
whenever no manifest entry exists). -/
def parseOVA (entries : List TarEntry)
    (manifest : List (String × String)) : Except ParseError OVAPackage :=
  let pkg := indexEntries entries 0 {}
  match pkg.ovfFile with
  | none => .error .noOVF
  | some _ =>
    if pkg.vmdkFiles = [] then .error .noVMDK
    else .ok (if pkg.manifestFile.isSome
      then updateHashesFromManifest pkg manifest else pkg)

/-- The payload descriptors the indexing loop produces from `entries`
starting at cursor `off` (specification helper for the loop above). -/
def collectVMDK : List TarEntry → Nat → List OVAFile
  | [], _ => []
  | e :: rest, off =>
    if isVMDKEntry e then
      { name := e.name, size := e.size, offset := off, sha1Hash := "" } ::
        collectVMDK rest (off + e.size)
    else collectVMDK rest (off + e.size)

/-- Concrete archive showing that strictly increasing payload offsets
fail: the zero-sized `b.vmdk` gives `c.vmdk` the same offset 5. -/
def ex7entries : List TarEntry :=
  [{ isReg := true, name := "a.ovf", size := 5 },
   { isReg := true, name := "b.vmdk", size := 0 },
   { isReg := true, name := "c.vmdk", size := 3 }]

/-- Failures of `ValidateFileChecksum` (parser.go:174-203): a short read
(`io.CopyN` hits EOF before `entry.size` bytes) or the checksum-mismatch
error carrying the entry name, the expected hash and the actual hash. -/
inductive ChecksumError where
  | shortRead
  | mismatch (name expected actual : String)
deriving Repr, DecidableEq

/-- `ValidateFileChecksum` (parser.go:174-203) over the container file
modelled as its byte list.  `sha1hex` abstracts the SHA-1 + lowercase
hex pipeline (`sha1.New`/`io.CopyN`/`%x`); the control flow modelled
here does not depend on the hash function itself.  An empty recorded
hash validates unconditionally; otherwise the `entry.size` bytes at
`entry.offset` are hashed and compared case-insensitively. -/
def validateFileChecksum (sha1hex : List UInt8 → String)
    (file : List UInt8) (f : OVAFile) : Option ChecksumError :=
  if f.sha1Hash = "" then none
  else if file.length < f.offset + f.size then some .shortRead
  else
    let computed := sha1hex ((file.drop f.offset).take f.size)
    if ¬ strToLower computed = strToLower f.sha1Hash then
      some (.mismatch f.name f.sha1Hash computed)
    else none

/-! ## Theorems -/

/-- C1: for an operation that fails on every invocation, `Execute` with
`maxRetries = 3` (and no retryable-error filter, no cancellation) invokes
the operation exactly 3 times and returns the exhausted error carrying
attempt count 3 and the last underlying error; with `maxRetries`
unbounded (config 0, stored as the sentinel `-1`) and the cancellation
signal firing during the wait after the second attempt, it returns the
cancelled error after exactly 2 invocations.  `f`/`g` make the fuel
arbitrary beyond the number of iterations actually executed. -/
theorem retry_execute_exhausted_and_cancelled (err : Nat → String) (f g : Nat) :
    execute (newRetryManager ⟨3, 0, 0, 0, 0, []⟩)
        (fun n => some (err n)) (fun _ => false) (f + 3) =
      (.exhausted 3 (err 3), 3) ∧
    execute (newRetryManager ⟨0, 0, 0, 0, 0, []⟩)
        (fun n => some (err n)) (fun n => decide (n = 2)) (g + 2) =
      (.cancelled 2, 2) := by
  constructor
  · simp [execute, executeAux, shouldRetry, newRetryManager]
  · simp [execute, executeAux, shouldRetry, newRetryManager]

/-- C10: the constructor replaces every zero-valued configuration field
with its built-in default (attempts 0 ↦ unbounded sentinel -1, base delay
0 ↦ 1 s, max delay 0 ↦ 5 min, backoff factor 0 ↦ 2.0, jitter 0 ↦ 0.1);
hence for every configuration with non-negative jitter fraction and base
delay (the spec constrains the jitter fraction to [0,1]) the constructed
executor has strictly positive jitter and base delay, and no
configuration at all yields a zero jitter fraction. -/
theorem newRetryManager_defaults (config : Config)
    (hjr : 0 ≤ config.jitterRange) (hbd : 0 ≤ config.baseDelay) :
    (config.maxRetries = 0 → (newRetryManager config).maxRetries = -1) ∧
    (config.baseDelay = 0 → (newRetryManager config).baseDelay = 1000000000) ∧
    (config.maxDelay = 0 → (newRetryManager config).maxDelay = 300000000000) ∧
    (config.backoffFactor = 0 → (newRetryManager config).backoffFactor = 2) ∧
    (config.jitterRange = 0 → (newRetryManager config).jitterRange = 1/10) ∧
    0 < (newRetryManager config).jitterRange ∧
    0 < (newRetryManager config).baseDelay ∧
    (newRetryManager config).jitterRange ≠ 0 := by
  unfold newRetryManager
  refine ⟨fun h => by simp [h], fun h => by simp [h], fun h => by simp [h],
    fun h => by simp [h], fun h => by simp [h], ?_, ?_, ?_⟩
  · by_cases h : config.jitterRange = 0
    · simp [h]
    · simp [h]; exact lt_of_le_of_ne hjr (Ne.symm h)
  · by_cases h : config.baseDelay = 0
    · simp [h]
    · simp [h]; exact lt_of_le_of_ne hbd (Ne.symm h)
  · by_cases h : config.jitterRange = 0
    · simp [h]
    · simp [h]

/-- Witness for C10 at the all-zero configuration. -/
theorem newRetryManager_defaults_witness :
    (0:ℚ) ≤ 0 ∧ 0 < (newRetryManager ⟨0, 0, 0, 0, 0, []⟩).jitterRange :=
  ⟨le_refl 0, (newRetryManager_defaults ⟨0, 0, 0, 0, 0, []⟩
    (le_refl 0) (le_refl 0)).2.2.2.2.2.1⟩

/-- C2 counterexample: the computed delay is NOT always ≤ the configured
maximum delay.  With base = max = 1 s, factor 2 and jitter 0.1 (all set
through the constructor), attempt 2 and random draw 3/4, the clamped
delay 1 s is perturbed upward to 1.05 s > maxDelay. -/
theorem calculateDelay_exceeds_maxDelay_cex :
    (newRetryManager ⟨3, 1000000000, 1000000000, 2, 1/10, []⟩).maxDelay <
      calculateDelay (newRetryManager ⟨3, 1000000000, 1000000000, 2, 1/10, []⟩)
        2 (3/4) := by
  norm_num [newRetryManager, calculateDelay]

/-- C2 (amended): for every configuration with non-negative base delay,
maximum delay and backoff factor and jitter fraction in [0,1], and every
random draw `r ∈ [0,1)`, the computed delay is ≥ 0 and ≤
`maxDelay * (1 + jitterRange)` (the jitter perturbation may overshoot the
configured maximum by at most the jitter fraction); and when the jitter
fraction is 0 the delay is exactly
`min maxDelay (baseDelay * backoffFactor^(attempt-1))` (deterministic). -/
theorem calculateDelay_bounds (rm : RetryManager) (attempt : Nat) (r : ℚ)
    (hbd : 0 ≤ rm.baseDelay) (hmd : 0 ≤ rm.maxDelay)
    (hbf : 0 ≤ rm.backoffFactor) (hj0 : 0 ≤ rm.jitterRange)
    (hj1 : rm.jitterRange ≤ 1) (hr0 : 0 ≤ r) (hr1 : r < 1) :
    0 ≤ calculateDelay rm attempt r ∧
    calculateDelay rm attempt r ≤ rm.maxDelay * (1 + rm.jitterRange) ∧
    (rm.jitterRange = 0 →
      calculateDelay rm attempt r =
        min rm.maxDelay (rm.baseDelay * rm.backoffFactor ^ (attempt - 1))) := by
  have hd0 : 0 ≤ rm.baseDelay * rm.backoffFactor ^ (attempt - 1) :=
    mul_nonneg hbd (pow_nonneg hbf _)
  unfold calculateDelay
  set d0 := rm.baseDelay * rm.backoffFactor ^ (attempt - 1) with hd0def
  by_cases hclamp : rm.maxDelay < d0
  · simp only [hclamp, if_pos]
    by_cases hjpos : 0 < rm.jitterRange
    · have h1 : 0 ≤ 1 + rm.jitterRange * (r * 2 - 1) := by nlinarith
      have h2 : 0 ≤ rm.maxDelay + rm.maxDelay * rm.jitterRange * (r * 2 - 1) := by
        nlinarith [mul_nonneg hmd h1]
      simp only [hjpos, if_pos]
      rw [if_neg (not_lt.2 h2)]
      refine ⟨h2, ?_, ?_⟩
      · nlinarith [mul_nonneg (mul_nonneg hmd hj0) (by linarith : (0:ℚ) ≤ 1 - (r * 2 - 1))]
      · intro hj; exact absurd hj (ne_of_gt hjpos)
    · simp only [hjpos, if_neg, if_false]
      rw [if_neg (not_lt.2 hmd)]
      have hj : rm.jitterRange = 0 := le_antisymm (not_lt.1 hjpos) hj0
      refine ⟨hmd, by nlinarith, fun _ => ?_⟩
      rw [min_eq_left (le_of_lt hclamp)]
  · simp only [hclamp, if_neg, if_false]
    have hle : d0 ≤ rm.maxDelay := not_lt.1 hclamp
    by_cases hjpos : 0 < rm.jitterRange
    · have h1 : 0 ≤ 1 + rm.jitterRange * (r * 2 - 1) := by nlinarith
      have h2 : 0 ≤ d0 + d0 * rm.jitterRange * (r * 2 - 1) := by
        nlinarith [mul_nonneg hd0 h1]
      simp only [hjpos, if_pos]
      rw [if_neg (not_lt.2 h2)]
      refine ⟨h2, ?_, ?_⟩
      · nlinarith [mul_nonneg (mul_nonneg hd0 hj0)
          (by linarith : (0:ℚ) ≤ 1 - (r * 2 - 1)),
          mul_nonneg (sub_nonneg.2 hle) hj0]
      · intro hj; exact absurd hj (ne_of_gt hjpos)
    · simp only [hjpos, if_neg, if_false]
      rw [if_neg (not_lt.2 hd0)]
      have hj : rm.jitterRange = 0 := le_antisymm (not_lt.1 hjpos) hj0
      refine ⟨hd0, by nlinarith, fun _ => ?_⟩
      rw [min_eq_right hle]

/-- Witness for C2 (amended) at a concrete configuration (base 1 s, max
1 s, factor 2, jitter 0.1, attempt 2, draw 3/4). -/
theorem calculateDelay_bounds_witness :
    0 ≤ calculateDelay (newRetryManager ⟨3, 1000000000, 1000000000, 2, 1/10, []⟩)
        2 (3/4) ∧
    calculateDelay (newRetryManager ⟨3, 1000000000, 1000000000, 2, 1/10, []⟩)
        2 (3/4) ≤
      (newRetryManager ⟨3, 1000000000, 1000000000, 2, 1/10, []⟩).maxDelay *
        (1 + (newRetryManager ⟨3, 1000000000, 1000000000, 2, 1/10, []⟩).jitterRange) := by
  have h := calculateDelay_bounds
    (newRetryManager ⟨3, 1000000000, 1000000000, 2, 1/10, []⟩) 2 (3/4)
    (by norm_num [newRetryManager]) (by norm_num [newRetryManager])
    (by norm_num [newRetryManager]) (by norm_num [newRetryManager])
    (by norm_num [newRetryManager]) (by norm_num) (by norm_num)
  exact ⟨h.1, h.2.1⟩

theorem totalChunksOf_eq (S C : Nat) (hS : 0 < S) (hC : 0 < C) :
    totalChunksOf S C = (S - 1) / C + 1 := by
  unfold totalChunksOf
  have h : S + C - 1 = (S - 1) + C := by omega
  rw [h, Nat.add_div_right _ hC]

theorem le_totalChunksOf_mul (S C : Nat) (hS : 0 < S) (hC : 0 < C) :
    S ≤ totalChunksOf S C * C := by
  rw [totalChunksOf_eq S C hS hC]
  have h := Nat.lt_div_mul_add (a := S - 1) hC
  rw [Nat.succ_mul]
  generalize (S - 1) / C * C = t at h ⊢
  omega

theorem pred_totalChunksOf_mul_lt (S C : Nat) (hS : 0 < S) (hC : 0 < C) :
    (totalChunksOf S C - 1) * C < S := by
  rw [totalChunksOf_eq S C hS hC]
  have h := Nat.div_mul_le_self (S - 1) C
  simp only [Nat.add_sub_cancel]
  omega

theorem buildChunksAux_closed (C S off : Nat) :
    ∀ n cur, cur + n * C < S + C →
      buildChunksAux C S off n cur =
        (List.range n).map
          (fun i => (off + (cur + i * C), min C (S - (cur + i * C)))) := by
  intro n
  induction n with
  | zero => intro cur _; simp [buildChunksAux]
  | succ m ih =>
    intro cur h
    rw [Nat.succ_mul] at h
    by_cases hshort : S < cur + C
    · have hm : m = 0 := by
        rcases Nat.eq_zero_or_pos m with h0 | h0
        · exact h0
        · exfalso
          have h1 : C ≤ m * C := Nat.le_mul_of_pos_left C h0
          generalize m * C = t at h h1
          omega
      subst hm
      have h1 : List.range (0 + 1) = [0] := rfl
      simp only [buildChunksAux, if_pos hshort, h1, List.map_cons,
        List.map_nil, Nat.zero_mul, Nat.add_zero]
      rw [Nat.min_eq_right (by omega : S - cur ≤ C)]
    · have harg : (cur + C) + m * C < S + C := by
        generalize m * C = t at h ⊢
        omega
      have hrec := ih (cur + C) harg
      simp only [buildChunksAux, if_neg hshort, hrec]
      rw [List.range_succ_eq_map, List.map_cons, List.map_map]
      refine congrArg₂ List.cons ?_ ?_
      · have hmin : min C (S - (cur + 0 * C)) = C := by
          have : cur + C ≤ S := Nat.not_lt.1 hshort
          rw [Nat.zero_mul, Nat.add_zero]
          exact Nat.min_eq_left (by omega)
        rw [Nat.zero_mul, Nat.add_zero] at hmin ⊢
        rw [hmin]
      · refine List.map_congr_left (fun i _ => ?_)
        have harith : cur + C + i * C = cur + (i + 1) * C := by
          rw [Nat.succ_mul]
          generalize i * C = t
          omega
        simp only [Function.comp, harith]

theorem buildChunks_closed (S C off : Nat) (hS : 0 < S) (hC : 0 < C) :
    buildChunks C S off =
      (List.range (totalChunksOf S C)).map
        (fun i => (off + i * C, min C (S - i * C))) := by
  unfold buildChunks
  have hlt : 0 + totalChunksOf S C * C < S + C := by
    rw [totalChunksOf_eq S C hS hC, Nat.succ_mul]
    have h := Nat.div_mul_le_self (S - 1) C
    generalize (S - 1) / C * C = t at h ⊢
    omega
  rw [buildChunksAux_closed C S off _ 0 hlt]
  simp only [Nat.zero_add]

/-- C3: in parallel mode, for payload size `S > 0` and chunk size
`C > 0`, the queued chunk ranges (modelled with payload base offset 0)
number exactly `⌈S/C⌉`, are ordered by strictly ascending offset, are
pairwise non-overlapping, exactly cover `[0, S)`, every non-final range
has length `C`, and the final range has length `S % C` whenever that is
non-zero. -/
theorem parallel_chunks_partition (S C : Nat) (hS : 0 < S) (hC : 0 < C) :
    (buildChunks C S 0).length = totalChunksOf S C ∧
    List.Pairwise (fun a b => a.1 < b.1) (buildChunks C S 0) ∧
    List.Pairwise (fun a b => a.1 + a.2 ≤ b.1) (buildChunks C S 0) ∧
    (∀ x, x < S ↔ ∃ p ∈ buildChunks C S 0, p.1 ≤ x ∧ x < p.1 + p.2) ∧
    (∀ i, i + 1 < totalChunksOf S C →
      ((buildChunks C S 0).getD i (0, 0)).2 = C) ∧
    (S % C ≠ 0 →
      ((buildChunks C S 0).getD (totalChunksOf S C - 1) (0, 0)).2 = S % C) := by
  have hclosed := buildChunks_closed S C 0 hS hC
  simp only [Nat.zero_add] at hclosed
  set k := totalChunksOf S C with hk
  have hkS : S ≤ k * C := le_totalChunksOf_mul S C hS hC
  have hkS2 : (k - 1) * C < S := pred_totalChunksOf_mul_lt S C hS hC
  have hk1 : 1 ≤ k := by
    by_contra hcon
    have hk0 : k = 0 := by omega
    rw [hk0, Nat.zero_mul] at hkS
    omega
  refine ⟨?_, ?_, ?_, ?_, ?_, ?_⟩
  · rw [hclosed]; simp
  · rw [hclosed]
    exact List.Pairwise.map _
      (fun a b hab => mul_lt_mul_of_pos_right hab hC)
      (List.pairwise_lt_range k)
  · rw [hclosed]
    refine List.Pairwise.map _ (fun a b hab => ?_) (List.pairwise_lt_range k)
    have h1 : min C (S - a * C) ≤ C := Nat.min_le_left _ _
    calc a * C + min C (S - a * C) ≤ a * C + C := Nat.add_le_add_left h1 _
      _ = (a + 1) * C := (Nat.succ_mul a C).symm
      _ ≤ b * C := Nat.mul_le_mul_right C hab
  · intro x
    constructor
    · intro hx
      have hdivlt : x / C < k := (Nat.div_lt_iff_lt_mul hC).2 (lt_of_lt_of_le hx hkS)
      refine ⟨(x / C * C, min C (S - x / C * C)), ?_, Nat.div_mul_le_self x C, ?_⟩
      · rw [hclosed]
        exact List.mem_map.2 ⟨x / C, List.mem_range.2 hdivlt, rfl⟩
      · rcases Nat.le_total C (S - x / C * C) with hmin | hmin
        · rw [Nat.min_eq_left hmin]
          exact Nat.lt_div_mul_add hC
        · rw [Nat.min_eq_right hmin]
          have hdle : x / C * C ≤ x := Nat.div_mul_le_self x C
          generalize x / C * C = t at hdle ⊢
          omega
    · rintro ⟨p, hp, _, hpx2⟩
      rw [hclosed] at hp
      obtain ⟨i, hi, rfl⟩ := List.mem_map.1 hp
      have hik : i ≤ k - 1 := by
        have := List.mem_range.1 hi
        omega
      have hiS : i * C < S :=
        lt_of_le_of_lt (Nat.mul_le_mul_right C hik) hkS2
      have hle : i * C + min C (S - i * C) ≤ S := by
        have h1 : min C (S - i * C) ≤ S - i * C := Nat.min_le_right _ _
        generalize hgen : i * C = t at h1 hiS ⊢
        generalize min C (S - t) = mn at h1 ⊢
        omega
      exact lt_of_lt_of_le hpx2 hle
  · intro i hik
    rw [hclosed]
    have hilen : i < k := by omega
    rw [List.getD_eq_getElem?_getD, List.getElem?_map, List.getElem?_range hilen]
    have h3 : (i + 1) * C < S :=
      lt_of_le_of_lt (Nat.mul_le_mul_right C (by omega : i + 1 ≤ k - 1)) hkS2
    rw [Nat.succ_mul] at h3
    simp only [Option.map_some', Option.getD_some]
    exact Nat.min_eq_left (by generalize i * C = t at h3 ⊢; omega)
  · intro hmod
    rw [hclosed]
    have hlen : k - 1 < k := by omega
    rw [List.getD_eq_getElem?_getD, List.getElem?_map, List.getElem?_range hlen]
    simp only [Option.map_some', Option.getD_some]
    have hq : k - 1 = S / C := by
      rw [hk, totalChunksOf_eq S C hS hC]
      simp only [Nat.add_sub_cancel]
      have hdm := Nat.div_add_mod S C
      have hml := Nat.mod_lt S hC
      have hS1 : S - 1 = C * (S / C) + (S % C - 1) := by
        generalize C * (S / C) = t at hdm ⊢
        omega
      rw [hS1, Nat.mul_add_div hC, Nat.div_eq_of_lt (by omega : S % C - 1 < C),
        Nat.add_zero]
    rw [hq]
    have hdm2 := Nat.div_add_mod' S C
    have hml := Nat.mod_lt S hC
    have hsub : S - S / C * C = S % C := by
      generalize S / C * C = t at hdm2 ⊢
      omega
    rw [hsub]
    exact Nat.min_eq_right (le_of_lt hml)

/-- Witness for C3 at `S = 5`, `C = 2`. -/
theorem parallel_chunks_partition_witness :
    0 < 5 ∧ 0 < 2 ∧
    ((buildChunks 2 5 0).length = totalChunksOf 5 2 ∧
    List.Pairwise (fun a b => a.1 < b.1) (buildChunks 2 5 0) ∧
    List.Pairwise (fun a b => a.1 + a.2 ≤ b.1) (buildChunks 2 5 0) ∧
    (∀ x, x < 5 ↔ ∃ p ∈ buildChunks 2 5 0, p.1 ≤ x ∧ x < p.1 + p.2) ∧
    (∀ i, i + 1 < totalChunksOf 5 2 →
      ((buildChunks 2 5 0).getD i (0, 0)).2 = 2) ∧
    (5 % 2 ≠ 0 →
      ((buildChunks 2 5 0).getD (totalChunksOf 5 2 - 1) (0, 0)).2 = 5 % 2)) :=
  ⟨by decide, by decide, parallel_chunks_partition 5 2 (by decide) (by decide)⟩

theorem lookupFile_replaceFile {l : List (String × FileProgress)} {n : String}
    {g : FileProgress} (f : FileProgress) (h : lookupFile l n = some g) :
    lookupFile (replaceFile l n f) n = some f := by
  induction l with
  | nil => simp [lookupFile] at h
  | cons p rest ih =>
    by_cases hp : p.1 = n
    · simp [lookupFile, replaceFile, hp]
    · simp only [lookupFile, replaceFile, if_neg hp, List.map_cons] at h ⊢
      exact ih h

theorem replaceFile_replaceFile (l : List (String × FileProgress))
    (n : String) (f g : FileProgress) :
    replaceFile (replaceFile l n f) n g = replaceFile l n g := by
  induction l with
  | nil => rfl
  | cons p rest ih =>
    by_cases hp : p.1 = n
    · simp [replaceFile, hp] at ih ⊢
      exact ih
    · simp [replaceFile, hp] at ih ⊢
      exact ih

/-- C4 counterexample: calling `UpdateFileProgress` with 5 on an item
currently at 10 does NOT leave the item and aggregate unchanged — the
item drops to 5 and the aggregate drops by 5 (decreases are applied, not
ignored). -/
theorem updateFileProgress_decrease_cex :
    (lookupFile (updateFileProgress exSession4 "a" 5 7).files "a").map
        (fun f => f.uploadedSize) = some 5 ∧
    (updateFileProgress exSession4 "a" 5 7).uploadedSize = 5 ∧
    ¬ ((lookupFile (updateFileProgress exSession4 "a" 5 7).files "a").map
        (fun f => f.uploadedSize) =
          (lookupFile exSession4.files "a").map (fun f => f.uploadedSize) ∧
      (updateFileProgress exSession4 "a" 5 7).uploadedSize =
        exSession4.uploadedSize) := by
  decide

/-- C4 (amended): `UpdateFileProgress` stores the supplied absolute value
unconditionally — for every registered item the item's uploaded size
becomes the supplied value (even when smaller than the current one) and
the session aggregate changes by (new - old). -/
theorem updateFileProgress_overwrites (s : UploadSession) (name : String)
    (f : FileProgress) (v now : Int)
    (h : lookupFile s.files name = some f) :
    (updateFileProgress s name v now).uploadedSize =
      s.uploadedSize + (v - f.uploadedSize) ∧
    lookupFile (updateFileProgress s name v now).files name =
      some { f with
        uploadedSize := v
        lastUpdate := now
        chunksUploaded := Int.tdiv v chunkSizeConst +
          (if 0 < Int.tmod v chunkSizeConst then 1 else 0)
        isCompleted := if f.totalSize ≤ v then true else f.isCompleted } := by
  unfold updateFileProgress
  rw [h]
  exact ⟨rfl, lookupFile_replaceFile _ h⟩

/-- Witness for C4 (amended) at `exSession4`. -/
theorem updateFileProgress_overwrites_witness :
    lookupFile exSession4.files "a" = some exFileA ∧
    (updateFileProgress exSession4 "a" 5 7).uploadedSize =
      exSession4.uploadedSize + (5 - exFileA.uploadedSize) :=
  ⟨by decide,
    (updateFileProgress_overwrites exSession4 "a" exFileA 5 7 (by decide)).1⟩

theorem markFileCompleted_eq (s : UploadSession) (name : String)
    (f : FileProgress) (now : Int) (h : lookupFile s.files name = some f) :
    markFileCompleted s name now =
      { s with
        uploadedSize := if f.isCompleted then s.uploadedSize
          else s.uploadedSize + (f.totalSize - f.uploadedSize)
        files := replaceFile s.files name (completedFile f now)
        lastUpdate := now
        isCompleted := s.isCompleted ||
          (replaceFile s.files name (completedFile f now)).all
            (fun p => p.2.isCompleted) } := by
  unfold markFileCompleted
  rw [h]
  by_cases hc : f.isCompleted
  · simp only [hc, not_true_eq_false, if_false, if_true]
    by_cases hall : (replaceFile s.files name (completedFile f now)).all
        (fun p => p.2.isCompleted)
    · simp only [completedFile] at hall
      simp [completedFile, hall]
    · simp only [completedFile] at hall
      simp [completedFile, hall]
  · simp only [hc, not_false_eq_true, if_true, if_false]
    by_cases hall : (replaceFile s.files name (completedFile f now)).all
        (fun p => p.2.isCompleted)
    · simp only [completedFile] at hall
      simp [completedFile, hall]
    · simp only [completedFile] at hall
      simp [completedFile, hall]

/-- C6 counterexample.  (a) After `MarkFileCompleted "b"` on
`exSession6` the aggregate completion flag is true although the AND of
the registered items' flags is false ("a" is incomplete): the aggregate
flag is not recomputed as that AND, a stale true is never cleared.
(b) On the reachable `exSession6Reg`, whose item "c" is flagged complete
with a regressed uploaded size of 5, `MarkFileCompleted "c"` leaves the
uploaded size at 5 rather than force it to the total 100: the
uploaded-equals-total conjunct also fails for already-complete items. -/
theorem markFileCompleted_aggregate_cex :
    ((markFileCompleted exSession6 "b" 3).isCompleted = true ∧
      (markFileCompleted exSession6 "b" 3).files.all
        (fun p => p.2.isCompleted) = false) ∧
    ((lookupFile exSession6Reg.files "c").map
        (fun f => (f.isCompleted, f.uploadedSize, f.totalSize)) =
      some (true, 5, 100) ∧
      (lookupFile (markFileCompleted exSession6Reg "c" 3).files "c").map
        (fun f => f.uploadedSize) = some 5 ∧
      ¬ ((5 : Int) = 100)) := by
  decide

/-- C6 (amended): for every registered item, `MarkFileCompleted` is
idempotent (same timestamp); it sets the item's completion flag and
saturates its chunk counter, and forces the item's uploaded size to its
total size only when the item was not already marked complete (an
already-complete item keeps its recorded uploaded size, even a
regressed one); and the session's aggregate flag becomes the OR of its
previous value and the AND of all registered items' completion flags
(all-items-complete forces true, but a stale true flag is never
cleared to false). -/
theorem markFileCompleted_spec (s : UploadSession) (name : String)
    (f : FileProgress) (now : Int) (h : lookupFile s.files name = some f) :
    markFileCompleted (markFileCompleted s name now) name now =
      markFileCompleted s name now ∧
    (lookupFile (markFileCompleted s name now).files name =
        some (completedFile f now) ∧
      (f.isCompleted = false →
        (completedFile f now).uploadedSize = f.totalSize) ∧
      (f.isCompleted = true →
        (completedFile f now).uploadedSize = f.uploadedSize) ∧
      (completedFile f now).isCompleted = true ∧
      (completedFile f now).chunksUploaded = f.chunksTotal) ∧
    (markFileCompleted s name now).isCompleted =
      (s.isCompleted ||
        (markFileCompleted s name now).files.all (fun p => p.2.isCompleted)) := by
  have hf' : lookupFile (markFileCompleted s name now).files name =
      some (completedFile f now) := by
    rw [markFileCompleted_eq s name f now h]
    exact lookupFile_replaceFile _ h
  refine ⟨?_, ⟨hf', ?_, ?_, rfl, rfl⟩, ?_⟩
  · have h2 := markFileCompleted_eq (markFileCompleted s name now) name
      (completedFile f now) now hf'
    rw [h2, markFileCompleted_eq s name f now h]
    simp [completedFile, replaceFile_replaceFile, Bool.or_assoc]
  · intro hc
    simp [completedFile, hc]
  · intro hc
    simp [completedFile, hc]
  · rw [markFileCompleted_eq s name f now h]

/-- Witness for C6 (amended) at `exSession4` / item "a". -/
theorem markFileCompleted_spec_witness :
    lookupFile exSession4.files "a" = some exFileA ∧
    markFileCompleted (markFileCompleted exSession4 "a" 3) "a" 3 =
      markFileCompleted exSession4 "a" 3 :=
  ⟨by decide, (markFileCompleted_spec exSession4 "a" exFileA 3 (by decide)).1⟩

theorem decodeFileProgress_encode (f : FileProgress) :
    decodeFileProgress (encodeFileProgress f) = some f := by
  by_cases hs : f.sha1Hash = ""
  · simp [encodeFileProgress, decodeFileProgress, jLookup, getStr, getInt,
      getBool, hs]
    rw [← hs]
  · simp [encodeFileProgress, decodeFileProgress, jLookup, getStr, getInt,
      getBool, hs]

theorem decodeFilesList_encode (l : List (String × FileProgress)) :
    decodeFilesList (l.map (fun p => (p.1, encodeFileProgress p.2))) =
      some l := by
  induction l with
  | nil => rfl
  | cons p rest ih =>
    simp [decodeFilesList, decodeFileProgress_encode, ih]

/-- C5: a session marshalled by `Save` and unmarshalled by `LoadTracker`
round-trips exactly — every per-item field (fileName, totalSize,
uploadedSize, chunksTotal, chunksUploaded, isCompleted, sha1Hash,
timestamps) and every session field including the aggregate completion
flag are preserved. -/
theorem session_roundtrip (s : UploadSession) :
    decodeSession (encodeSession s) = some s := by
  simp [encodeSession, decodeSession, jLookup, getStr, getInt, getBool,
    getFiles, decodeFilesList_encode]

theorem indexEntries_vmdkFiles (es : List TarEntry) :
    ∀ off pkg, (indexEntries es off pkg).vmdkFiles =
      pkg.vmdkFiles ++ collectVMDK es off := by
  induction es with
  | nil => intro off pkg; simp [indexEntries, collectVMDK]
  | cons e rest ih =>
    intro off pkg
    by_cases hr : e.isReg
    · simp only [indexEntries, hr, if_true]
      by_cases h1 : strToLower (fileExt e.name) = ".ovf"
      · simp [collectVMDK, isVMDKEntry, hr, h1, ih]
      · by_cases h2 : strToLower (fileExt e.name) = ".vmdk"
        · simp [collectVMDK, isVMDKEntry, hr, h1, h2, ih]
        · by_cases h3 : strToLower (fileExt e.name) = ".mf"
          · simp [collectVMDK, isVMDKEntry, hr, h1, h2, h3, ih]
          · by_cases h4 : strToLower (fileExt e.name) = ".cert"
            · simp [collectVMDK, isVMDKEntry, hr, h1, h2, h3, h4, ih]
            · simp [collectVMDK, isVMDKEntry, hr, h1, h2, h3, h4, ih]
    · simp [indexEntries, collectVMDK, isVMDKEntry, hr, ih]

theorem collectVMDK_offset_le (es : List TarEntry) :
    ∀ off f, f ∈ collectVMDK es off → off ≤ f.offset := by
  induction es with
  | nil => intro off f hf; simp [collectVMDK] at hf
  | cons e rest ih =>
    intro off f hf
    by_cases he : isVMDKEntry e
    · simp only [collectVMDK, he, if_true, List.mem_cons] at hf
      rcases hf with rfl | hf
      · exact le_refl _
      · exact le_trans (Nat.le_add_right _ _) (ih _ _ hf)
    · simp only [collectVMDK, he, if_false] at hf
      exact le_trans (Nat.le_add_right _ _) (ih _ _ hf)

theorem collectVMDK_chain (es : List TarEntry) :
    ∀ off, List.Chain' (fun a b => a.offset + a.size ≤ b.offset)
      (collectVMDK es off) := by
  induction es with
  | nil => intro off; simp [collectVMDK]
  | cons e rest ih =>
    intro off
    by_cases he : isVMDKEntry e
    · simp only [collectVMDK, he, if_true]
      refine List.chain'_cons'.2 ⟨?_, ih _⟩
      intro y hy
      exact collectVMDK_offset_le rest _ y (List.mem_of_mem_head? hy)
    · simp only [collectVMDK, he, if_false]
      exact ih _

theorem collectVMDK_chain_strict (es : List TarEntry)
    (hpos : ∀ e ∈ es, 0 < e.size) :
    ∀ off, List.Chain' (fun a b => a.offset < b.offset)
      (collectVMDK es off) := by
  induction es with
  | nil => intro off; simp [collectVMDK]
  | cons e rest ih =>
    have hpos' : ∀ x ∈ rest, 0 < x.size :=
      fun x hx => hpos x (List.mem_cons_of_mem e hx)
    have hepos : 0 < e.size := hpos e (List.mem_cons_self e rest)
    intro off
    by_cases he : isVMDKEntry e
    · simp only [collectVMDK, he, if_true]
      refine List.chain'_cons'.2 ⟨?_, ih hpos' _⟩
      intro y hy
      have h0 := collectVMDK_offset_le rest _ y (List.mem_of_mem_head? hy)
      show off < y.offset
      omega
    · simp only [collectVMDK, he, if_false]
      exact ih hpos' _

theorem collectVMDK_length (es : List TarEntry) :
    ∀ off, (collectVMDK es off).length = (es.filter isVMDKEntry).length := by
  induction es with
  | nil => intro off; rfl
  | cons e rest ih =>
    intro off
    by_cases he : isVMDKEntry e
    · simp [collectVMDK, List.filter, he, ih]
    · simp [collectVMDK, List.filter, he, ih]

theorem indexEntries_ovfFile_of_none (es : List TarEntry) :
    ∀ off pkg, (∀ e ∈ es, isOVFEntry e = false) →
      (indexEntries es off pkg).ovfFile = pkg.ovfFile := by
  induction es with
  | nil => intro off pkg _; rfl
  | cons e rest ih =>
    intro off pkg h
    have he : isOVFEntry e = false := h e (List.mem_cons_self e rest)
    have hrest : ∀ x ∈ rest, isOVFEntry x = false :=
      fun x hx => h x (List.mem_cons_of_mem e hx)
    by_cases hr : e.isReg
    · have hext : ¬ strToLower (fileExt e.name) = ".ovf" := by
        simp [isOVFEntry, hr] at he
        exact he
      simp only [indexEntries, hr, if_true, if_neg hext]
      by_cases h2 : strToLower (fileExt e.name) = ".vmdk"
      · simp only [if_pos h2]
        rw [ih _ _ hrest]
      · simp only [if_neg h2]
        by_cases h3 : strToLower (fileExt e.name) = ".mf"
        · simp only [if_pos h3]
          rw [ih _ _ hrest]
        · simp only [if_neg h3]
          by_cases h4 : strToLower (fileExt e.name) = ".cert"
          · simp only [if_pos h4]
            rw [ih _ _ hrest]
          · simp only [if_neg h4]
            rw [ih _ _ hrest]
    · simp only [indexEntries, hr, Bool.false_eq_true, if_false]
      rw [ih _ _ hrest]

theorem collectVMDK_of_none (es : List TarEntry) :
    ∀ off, (∀ e ∈ es, isVMDKEntry e = false) → collectVMDK es off = [] := by
  induction es with
  | nil => intro off _; rfl
  | cons e rest ih =>
    intro off h
    have he : isVMDKEntry e = false := h e (List.mem_cons_self e rest)
    have hrest : ∀ x ∈ rest, isVMDKEntry x = false :=
      fun x hx => h x (List.mem_cons_of_mem e hx)
    simp only [collectVMDK, he, if_false, Bool.false_eq_true]
    exact ih _ hrest

theorem applyManifestHash_offset (m : List (String × String)) (f : OVAFile) :
    (applyManifestHash m f).offset = f.offset := by
  unfold applyManifestHash
  cases manifestLookup m f.name <;> rfl

theorem applyManifestHash_size (m : List (String × String)) (f : OVAFile) :
    (applyManifestHash m f).size = f.size := by
  unfold applyManifestHash
  cases manifestLookup m f.name <;> rfl

theorem updateHashes_vmdkFiles (pkg : OVAPackage)
    (m : List (String × String)) :
    (updateHashesFromManifest pkg m).vmdkFiles =
      pkg.vmdkFiles.map (applyManifestHash m) := by
  cases hov : pkg.ovfFile <;> simp [updateHashesFromManifest, hov]

theorem indexEntries_ovfFile_none_iff (es : List TarEntry) :
    ∀ off pkg, ((indexEntries es off pkg).ovfFile = none ↔
      (pkg.ovfFile = none ∧ ∀ e ∈ es, isOVFEntry e = false)) := by
  induction es with
  | nil => intro off pkg; simp [indexEntries]
  | cons e rest ih =>
    intro off pkg
    by_cases hr : e.isReg
    · by_cases h1 : strToLower (fileExt e.name) = ".ovf"
      · simp only [indexEntries, hr, if_true, if_pos h1]
        rw [ih]
        simp [List.forall_mem_cons, isOVFEntry, hr, h1]
      · simp only [indexEntries, hr, if_true, if_neg h1]
        by_cases h2 : strToLower (fileExt e.name) = ".vmdk"
        · simp only [if_pos h2]
          rw [ih]
          simp [List.forall_mem_cons, isOVFEntry, hr, h1]
        · simp only [if_neg h2]
          by_cases h3 : strToLower (fileExt e.name) = ".mf"
          · simp only [if_pos h3]
            rw [ih]
            simp [List.forall_mem_cons, isOVFEntry, hr, h1]
          · simp only [if_neg h3]
            by_cases h4 : strToLower (fileExt e.name) = ".cert"
            · simp only [if_pos h4]
              rw [ih]
              simp [List.forall_mem_cons, isOVFEntry, hr, h1]
            · simp only [if_neg h4]
              rw [ih]
              simp [List.forall_mem_cons, isOVFEntry, hr, h1]
    · simp only [indexEntries, hr, Bool.false_eq_true, if_false]
      rw [ih]
      simp [List.forall_mem_cons, isOVFEntry, hr]

/-- C7 (amended): for every archive with a configuration entry and
`N ≥ 1` payload entries, `ParseOVA` succeeds with exactly `N` payload
descriptors whose offsets, in archive order, satisfy
`offset(i) + size(i) ≤ offset(i+1)` for consecutive descriptors (hence
offsets are non-decreasing, and `offset+size` of an entry never exceeds
the offset of the payload entry that follows it in archive order); the
offsets are strictly increasing whenever every archive entry has
positive size (a zero-sized record makes the next offset equal, so
strictness does not hold unconditionally). -/
theorem parseOVA_payload_offsets (entries : List TarEntry)
    (manifest : List (String × String))
    (hovf : ∃ e ∈ entries, isOVFEntry e)
    (hN : 0 < (entries.filter isVMDKEntry).length) :
    ∃ pkg, parseOVA entries manifest = .ok pkg ∧
      pkg.vmdkFiles.length = (entries.filter isVMDKEntry).length ∧
      List.Chain' (fun a b => a.offset + a.size ≤ b.offset) pkg.vmdkFiles ∧
      ((∀ e ∈ entries, 0 < e.size) →
        List.Chain' (fun a b => a.offset < b.offset) pkg.vmdkFiles) := by
  have hnone : ¬ (indexEntries entries 0 {}).ovfFile = none := by
    rw [indexEntries_ovfFile_none_iff]
    rintro ⟨-, hall⟩
    obtain ⟨e, he, hP⟩ := hovf
    rw [hall e he] at hP
    exact absurd hP (by simp)
  obtain ⟨ovf, hovfeq⟩ : ∃ o, (indexEntries entries 0 {}).ovfFile = some o := by
    cases h : (indexEntries entries 0 {}).ovfFile
    · exact absurd h hnone
    · exact ⟨_, rfl⟩
  have hvm : (indexEntries entries 0 {}).vmdkFiles = collectVMDK entries 0 := by
    rw [indexEntries_vmdkFiles]
    rfl
  have hvmne : ¬ (indexEntries entries 0 {}).vmdkFiles = [] := by
    rw [hvm]
    intro hcon
    have hl := collectVMDK_length entries 0
    rw [hcon] at hl
    simp at hl
    omega
  have hlen0 : (indexEntries entries 0 {}).vmdkFiles.length =
      (entries.filter isVMDKEntry).length := by
    rw [hvm, collectVMDK_length]
  have hchain0 : List.Chain' (fun a b => a.offset + a.size ≤ b.offset)
      (indexEntries entries 0 {}).vmdkFiles := by
    rw [hvm]; exact collectVMDK_chain entries 0
  have hstrict0 : (∀ e ∈ entries, 0 < e.size) →
      List.Chain' (fun a b => a.offset < b.offset)
        (indexEntries entries 0 {}).vmdkFiles := by
    intro hp
    rw [hvm]; exact collectVMDK_chain_strict entries hp 0
  by_cases hman : (indexEntries entries 0 {}).manifestFile.isSome
  · refine ⟨updateHashesFromManifest (indexEntries entries 0 {}) manifest,
      ?_, ?_, ?_, ?_⟩
    · simp [parseOVA, hovfeq, hvmne, hman]
    · rw [updateHashes_vmdkFiles]
      simp [hlen0]
    · rw [updateHashes_vmdkFiles]
      refine (List.chain'_map _).2 (hchain0.imp (fun a b hab => ?_))
      rw [applyManifestHash_offset, applyManifestHash_size,
        applyManifestHash_offset]
      exact hab
    · intro hp
      rw [updateHashes_vmdkFiles]
      refine (List.chain'_map _).2 ((hstrict0 hp).imp (fun a b hab => ?_))
      rw [applyManifestHash_offset, applyManifestHash_offset]
      exact hab
  · exact ⟨indexEntries entries 0 {}, by simp [parseOVA, hovfeq, hvmne, hman],
      hlen0, hchain0, hstrict0⟩

/-- C7 counterexample: `ParseOVA` succeeds on `ex7entries` with payload
offsets [5, 5], which are NOT strictly increasing. -/
theorem parseOVA_offsets_not_strict_cex :
    (parseOVA ex7entries []).toOption.map
      (fun pkg => pkg.vmdkFiles.map (fun f => f.offset)) = some [5, 5] ∧
    ¬ List.Chain' (fun a b => a < b) ([5, 5] : List Nat) := by
  constructor
  · decide
  · simp [List.chain'_cons]

/-- Witness for C7 (amended) at `ex7entries`. -/
theorem parseOVA_payload_offsets_witness :
    (∃ e ∈ ex7entries, isOVFEntry e) ∧
    0 < (ex7entries.filter isVMDKEntry).length ∧
    ∃ pkg, parseOVA ex7entries [] = .ok pkg ∧
      pkg.vmdkFiles.length = (ex7entries.filter isVMDKEntry).length ∧
      List.Chain' (fun a b => a.offset + a.size ≤ b.offset) pkg.vmdkFiles ∧
      ((∀ e ∈ ex7entries, 0 < e.size) →
        List.Chain' (fun a b => a.offset < b.offset) pkg.vmdkFiles) :=
  ⟨by decide, by decide,
    parseOVA_payload_offsets ex7entries [] (by decide) (by decide)⟩

/-- C8: an archive with no configuration (`.ovf`) entry, or with no
payload (`.vmdk`) entry, makes `ParseOVA` fail with the corresponding
missing-required-entry error rather than return a package. -/
theorem parseOVA_missing_entry_error (entries : List TarEntry)
    (manifest : List (String × String))
    (h : (∀ e ∈ entries, isOVFEntry e = false) ∨
      (∀ e ∈ entries, isVMDKEntry e = false)) :
    ∃ err, parseOVA entries manifest = .error err := by
  rcases h with h | h
  · have hnone : (indexEntries entries 0 {}).ovfFile = none := by
      rw [indexEntries_ovfFile_none_iff]
      exact ⟨rfl, h⟩
    exact ⟨.noOVF, by simp [parseOVA, hnone]⟩
  · cases hov : (indexEntries entries 0 {}).ovfFile with
    | none => exact ⟨.noOVF, by simp [parseOVA, hov]⟩
    | some o =>
      have hvm : (indexEntries entries 0 {}).vmdkFiles = [] := by
        rw [indexEntries_vmdkFiles, collectVMDK_of_none entries 0 h]
        rfl
      exact ⟨.noVMDK, by simp [parseOVA, hov, hvm]⟩

/-- Witness for C8 at the empty archive. -/
theorem parseOVA_missing_entry_error_witness :
    (∀ e ∈ ([] : List TarEntry), isOVFEntry e = false) ∧
    ∃ err, parseOVA [] [] = .error err :=
  ⟨by simp, parseOVA_missing_entry_error [] [] (Or.inl (by simp))⟩

/-- C9: `ValidateFileChecksum` succeeds for every entry with an empty
recorded hash regardless of content; and for every in-bounds entry whose
recorded hash differs case-insensitively from the hash of the
`entry.size` bytes at `entry.offset`, it fails with the mismatch error
carrying the expected (recorded) and actual (computed) hashes. -/
theorem validateFileChecksum_spec (sha1hex : List UInt8 → String)
    (file : List UInt8) (f : OVAFile) :
    (f.sha1Hash = "" → validateFileChecksum sha1hex file f = none) ∧
    (f.sha1Hash ≠ "" → f.offset + f.size ≤ file.length →
      ¬ strToLower (sha1hex ((file.drop f.offset).take f.size)) =
          strToLower f.sha1Hash →
      validateFileChecksum sha1hex file f =
        some (.mismatch f.name f.sha1Hash
          (sha1hex ((file.drop f.offset).take f.size)))) := by
  constructor
  · intro h
    simp [validateFileChecksum, h]
  · intro h hlen hne
    simp [validateFileChecksum, h, Nat.not_lt.2 hlen, hne]

/-- Witness for C9: an entry with hash "bb" over an empty file and a
hash function returning "aa" yields the mismatch error; an entry with no
recorded hash validates. -/
theorem validateFileChecksum_spec_witness :
    validateFileChecksum (fun _ => "aa") []
        { name := "x", size := 0, offset := 0, sha1Hash := "bb" } =
      some (.mismatch "x" "bb" "aa") ∧
    validateFileChecksum (fun _ => "aa") []
        { name := "y", size := 0, offset := 0, sha1Hash := "" } = none :=
  ⟨(validateFileChecksum_spec (fun _ => "aa") []
      { name := "x", size := 0, offset := 0, sha1Hash := "bb" }).2
      (by decide) (by decide) (by decide),
    (validateFileChecksum_spec (fun _ => "aa") []
      { name := "y", size := 0, offset := 0, sha1Hash := "" }).1 rfl⟩
